import Mathlib

/-!
Verification of the raytracer core against its specification.

The development shallowly embeds the geometry and rendering pipeline of the
raytracer repository.  Python floats are idealized as real numbers.  Functions
whose bodies are present in the sources (the Vector constructor and item
access, the Triangle constructor, the Matrix constructor and the two matrix
multiplies, the byte encoding in Scene.render) are translated directly from
the code.  Functions whose bodies the repository leaves as stubs
(solve_quadratic, Sphere.intersect, refract, Vector.normalize, tone mapping
and gamma correction) are modelled from the specification text, and each such
definition says so in its doc comment.
-/

namespace Raytracer

/-- Embeds the Python class Vector from geometry/vector.py: three float
components x, y, z. -/
structure Vec where
  x : ℝ
  y : ℝ
  z : ℝ

instance : Zero Vec where
  zero := ⟨0, 0, 0⟩

/-- Embeds Vector componentwise addition. -/
def Vec.add (a b : Vec) : Vec := ⟨a.x + b.x, a.y + b.y, a.z + b.z⟩

instance : Add Vec := ⟨Vec.add⟩

/-- Embeds Vector componentwise subtraction. -/
def Vec.sub (a b : Vec) : Vec := ⟨a.x - b.x, a.y - b.y, a.z - b.z⟩

instance : Sub Vec := ⟨Vec.sub⟩

/-- Embeds Vector negation. -/
def Vec.neg (a : Vec) : Vec := ⟨-a.x, -a.y, -a.z⟩

instance : Neg Vec := ⟨Vec.neg⟩

/-- Embeds multiplication of a Vector by a scalar. -/
def Vec.smul (r : ℝ) (v : Vec) : Vec := ⟨r * v.x, r * v.y, r * v.z⟩

instance : SMul ℝ Vec := ⟨Vec.smul⟩

/-- Embeds division of a Vector by a scalar. -/
noncomputable def Vec.divScalar (v : Vec) (r : ℝ) : Vec := ⟨v.x / r, v.y / r, v.z / r⟩

/-- Embeds Vector.dot. -/
def Vec.dot (a b : Vec) : ℝ := a.x * b.x + a.y * b.y + a.z * b.z

/-- Embeds Vector.cross, the right-handed cross product. -/
def Vec.cross (a b : Vec) : Vec :=
  ⟨a.y * b.z - a.z * b.y, a.z * b.x - a.x * b.z, a.x * b.y - a.y * b.x⟩

/-- Embeds Vector.hadamard, the componentwise product. -/
def Vec.hadamard (a b : Vec) : Vec := ⟨a.x * b.x, a.y * b.y, a.z * b.z⟩

/-- Modelled from the spec: Vector.length is a stub in geometry/vector.py; the
spec defines it as the L2 norm sqrt (x^2 + y^2 + z^2). -/
noncomputable def Vec.length (v : Vec) : ℝ := Real.sqrt (v.x ^ 2 + v.y ^ 2 + v.z ^ 2)

/-- Modelled from the spec: Vector.normalize is a stub in geometry/vector.py;
the spec divides the vector by its length, with zero length a precondition
violation of the caller. -/
noncomputable def Vec.normalize (v : Vec) : Vec := v.divScalar v.length

/-- Embeds Vector initialization from geometry/vector.py: with y absent the
single argument is broadcast to all three components, with y present and z
absent the assertion fails, and with all three present the components are
taken as given.  An absent optional argument is modelled as the value none. -/
def vector_make (x : ℝ) (y z : Option ℝ) : Except Unit Vec :=
  match y with
  | none => .ok ⟨x, x, x⟩
  | some yv =>
    match z with
    | none => .error ()
    | some zv => .ok ⟨x, yv, zv⟩

/-- Embeds Vector item access from geometry/vector.py: indices 0, 1, 2 give
the components and every other integer index raises IndexError, modelled as
none. -/
def Vec.getitem (v : Vec) (idx : ℤ) : Option ℝ :=
  if idx = 0 then some v.x
  else if idx = 1 then some v.y
  else if idx = 2 then some v.z
  else none

/-- Embeds the Ray attrs class from geometry/ray.py: an origin and a
direction. -/
structure Ray where
  origin : Vec
  direction : Vec

/-- Embeds Ray construction: the attrs post-init hook normalizes the direction
in place, so every constructed Ray carries a normalized direction. -/
noncomputable def mkRay (origin direction : Vec) : Ray := ⟨origin, direction.normalize⟩

/-- Modelled from the spec: refract is a stub in geometry/ray.py.  Following
section 4.2 of the spec, cosI is the negated dot product of the normal with
the direction; when cosI is negative the normal is flipped, eta is inverted
and cosI is negated; sin2T above 1 is total internal reflection and yields
none; otherwise the refracted direction is
eta * d + (eta * cosI - cosT) * n, normalized. -/
noncomputable def refract (direction normal : Vec) (eta : ℝ) : Option Vec :=
  let cosI0 := -(normal.dot direction)
  let n := if cosI0 < 0 then -normal else normal
  let e := if cosI0 < 0 then 1 / eta else eta
  let cI := if cosI0 < 0 then -cosI0 else cosI0
  let sin2T := e ^ 2 * (1 - cI ^ 2)
  if 1 < sin2T then none
  else some ((e • direction + (e * cI - Real.sqrt (1 - sin2T)) • n).normalize)

/-- Modelled from the spec: solve_quadratic is a stub in geometry/sphere.py.
Following section 4.3 of the spec: with a = b = c = 0 the equation has
infinitely many solutions and the function fails with a reportable error
(RuntimeError in the docstring), and this is the only failing case; with
a = 0 and b nonzero it degenerates to the linear case; with a = 0, b = 0 and
c nonzero the equation has no solutions and no quadratic formula applies, so
no roots are returned; otherwise a negative discriminant yields none and a
non-negative discriminant yields the two roots sorted ascending. -/
noncomputable def solve_quadratic (a b c : ℝ) : Except Unit (Option (ℝ × ℝ)) :=
  if a = 0 then
    if b = 0 then
      if c = 0 then .error ()
      else .ok none
    else .ok (some (-c / b, -c / b))
  else
    let disc := b ^ 2 - 4 * a * c
    if disc < 0 then .ok none
    else
      let r1 := (-b - Real.sqrt disc) / (2 * a)
      let r2 := (-b + Real.sqrt disc) / (2 * a)
      if r1 ≤ r2 then .ok (some (r1, r2)) else .ok (some (r2, r1))

/-- Modelled from the spec: the Intersection record of the geometry base
module, which is not among the provided sources; it carries the hit distance,
the hit point and the surface normal. -/
structure Intersection where
  t : ℝ
  point : Vec
  normal : Vec

/-- Embeds the Sphere attrs class from geometry/sphere.py: a center and a
radius. -/
structure Sphere where
  center : Vec
  radius : ℝ

/-- Modelled from the spec: Sphere.get_normal is a stub in geometry/sphere.py;
the spec defines it as (point - center) / radius, the outer normal. -/
noncomputable def Sphere.get_normal (s : Sphere) (point : Vec) : Vec :=
  (point - s.center).divScalar s.radius

/-- Modelled from the spec: Sphere.intersect is a stub in geometry/sphere.py.
Following section 4.4 of the spec it solves the quadratic with a = 1,
b = 2 * dot (D, O - C) and c = dot (O - C, O - C) - r ^ 2, then: both roots
negative means no visible intersection; t0 negative and t1 positive means the
origin is inside the sphere and the exit point t1 is reported; otherwise t0
is reported. -/
noncomputable def Sphere.intersect (s : Sphere) (ray : Ray) : Option Intersection :=
  let oc := ray.origin - s.center
  let b := 2 * (ray.direction.dot oc)
  let c := oc.dot oc - s.radius ^ 2
  match solve_quadratic 1 b c with
  | .error _ => none
  | .ok none => none
  | .ok (some (t0, t1)) =>
    if t0 < 0 ∧ t1 < 0 then none
    else if t0 < 0 ∧ 0 < t1 then
      some ⟨t1, ray.origin + t1 • ray.direction,
            s.get_normal (ray.origin + t1 • ray.direction)⟩
    else
      some ⟨t0, ray.origin + t0 • ray.direction,
            s.get_normal (ray.origin + t0 • ray.direction)⟩

/-- Embeds the Triangle class from geometry/triangle.py: the tuple of
vertices. -/
structure Triangle where
  vertices : List Vec

/-- Embeds Triangle initialization from geometry/triangle.py: a vertex
sequence whose length differs from three is rejected with RuntimeError before
any Triangle value is produced. -/
def triangle_make (vs : List Vec) : Except Unit Triangle :=
  if vs.length = 3 then .ok ⟨vs⟩ else .error ()

/-- Embeds the Matrix constructor from render/matrix.py: rows 0..2 of the
upper-left 3x3 block are right, up and forward, row 3 holds the translation
from_, entry (3,3) is 1, and the remaining entries of column 3 are 0.  The
four defining vectors determine the whole 4x4 matrix, so they are the
fields. -/
structure Matrix where
  right : Vec
  up : Vec
  forward : Vec
  from_ : Vec

/-- Embeds vector_matrix_multiply from render/matrix.py: the transpose of the
upper-left 3x3 block applied to v, that is
v.x * right + v.y * up + v.z * forward. -/
def vector_matrix_multiply (m : Matrix) (v : Vec) : Vec :=
  v.x • m.right + v.y • m.up + v.z • m.forward

/-- Embeds point_matrix_multiply from render/matrix.py exactly as written:
the rotated point plus the translation row, divided by
depth = dot (point, from_) + 1, which the code reads from row 3 of the
matrix. -/
noncomputable def point_matrix_multiply (m : Matrix) (p : Vec) : Vec :=
  (vector_matrix_multiply m p + m.from_).divScalar (p.dot m.from_ + 1)

/-- Embeds the EPS constant of render/scene.py. -/
noncomputable def EPS : ℝ := 1 / 10 ^ 8

/-- Embeds NONE_VECTOR from render/scene.py, the miss sentinel
Vector(-3.14). -/
noncomputable def noneVector : Vec := ⟨-3.14, -3.14, -3.14⟩

/-- Modelled from the spec: the maximum channel of a pixel, used by the tone
mapping and gamma correction stubs of render/scene.py. -/
noncomputable def maxChannel (p : Vec) : ℝ := max p.x (max p.y p.z)

/-- Modelled from the spec: Scene.tone_mapping is a stub in render/scene.py.
Per pixel, section 4.8 of the spec replaces a pixel equal within eps to the
miss sentinel by the background color and rescales a pixel whose maximum
channel exceeds 1 by dividing by that maximum. -/
noncomputable def tone_mapping_pixel (background : Vec) (eps : ℝ) (p : Vec) : Vec :=
  let q :=
    if |p.x - noneVector.x| ≤ eps ∧ |p.y - noneVector.y| ≤ eps ∧ |p.z - noneVector.z| ≤ eps
    then background else p
  if 1 < maxChannel q then q.divScalar (maxChannel q) else q

/-- Modelled from the spec: Scene.gamma_correction is a stub in
render/scene.py.  Per pixel, a pixel whose maximum channel is at most eps is
skipped, and otherwise every channel c becomes c ^ (1 / gamma). -/
noncomputable def gamma_correction_pixel (gamma eps : ℝ) (p : Vec) : Vec :=
  if maxChannel p ≤ eps then p
  else ⟨p.x ^ (1 / gamma), p.y ^ (1 / gamma), p.z ^ (1 / gamma)⟩

/-- Modelled from the spec: tone mapping over a whole pixel buffer, modelled
as a list of pixels. -/
noncomputable def tone_mapping (background : Vec) (eps : ℝ) (buf : List Vec) : List Vec :=
  buf.map (tone_mapping_pixel background eps)

/-- Modelled from the spec: gamma correction over a whole pixel buffer. -/
noncomputable def gamma_correction (gamma eps : ℝ) (buf : List Vec) : List Vec :=
  buf.map (gamma_correction_pixel gamma eps)

/-- Embeds Scene.postprocess from render/scene.py: tone mapping followed by
gamma correction. -/
noncomputable def postprocess (background : Vec) (gamma eps : ℝ) (buf : List Vec) : List Vec :=
  gamma_correction gamma eps (tone_mapping background eps buf)

/-- Embeds the composite effect of Scene.postprocess on a single pixel. -/
noncomputable def postprocess_pixel (background : Vec) (gamma eps : ℝ) (p : Vec) : Vec :=
  gamma_correction_pixel gamma eps (tone_mapping_pixel background eps p)

/-- Embeds np.clip with the argument order as written in Scene.render, namely
np.clip(0, 255, x): the scalar 0 is the clipped operand, so the result is
min (max 0 255) x = min 255 x and no lower clamp is applied to x. -/
noncomputable def np_clip_as_written (x : ℝ) : ℝ := min (max (0 : ℝ) 255) x

/-- Embeds the conversion np.uint8 applied to an in-range float: truncation
toward zero. -/
noncomputable def uint8_trunc (x : ℝ) : ℤ := if 0 ≤ x then ⌊x⌋ else ⌈x⌉

/-- Embeds the byte computed by Scene.render for one channel c, from the line
Image.fromarray(np.uint8(np.clip(0, 255, 256 * pixels))). -/
noncomputable def render_byte (c : ℝ) : ℤ := uint8_trunc (np_clip_as_written (256 * c))

/-- Modelled from the spec: the documented external contract for the byte of
one channel, byte = clamp (0, 255, round (256 * channel)). -/
noncomputable def contract_byte (c : ℝ) : ℤ := min 255 (max 0 (round (256 * c)))

/-- Background pixel used below to exercise the postprocessing pipeline. -/
noncomputable def c8bg : Vec :=
  ⟨(2 : ℝ) ^ ((-11 : ℝ) / 5), (2 : ℝ) ^ ((-11 : ℝ) / 5), (2 : ℝ) ^ ((-11 : ℝ) / 5)⟩

/-! Helper lemmas about the embedded vector operations. -/

theorem Vec.add_def (a b : Vec) : a + b = ⟨a.x + b.x, a.y + b.y, a.z + b.z⟩ := rfl

theorem Vec.sub_def (a b : Vec) : a - b = ⟨a.x - b.x, a.y - b.y, a.z - b.z⟩ := rfl

theorem Vec.neg_def (a : Vec) : -a = ⟨-a.x, -a.y, -a.z⟩ := rfl

theorem Vec.smul_def (r : ℝ) (v : Vec) : r • v = ⟨r * v.x, r * v.y, r * v.z⟩ := rfl

theorem Vec.zero_def : (0 : Vec) = ⟨0, 0, 0⟩ := rfl

/-! Claims. -/

/-- C9: the Vector constructor with a single argument x produces (x, x, x),
so in particular with no arguments it produces the zero vector (0, 0, 0);
with three arguments it produces (x, y, z); with exactly two arguments the
assertion fails. -/
theorem vector_make_spec (x y z : ℝ) :
    vector_make x none none = .ok ⟨x, x, x⟩ ∧
    vector_make 0 none none = .ok ⟨0, 0, 0⟩ ∧
    vector_make x (some y) (some z) = .ok ⟨x, y, z⟩ ∧
    vector_make x (some y) none = .error () :=
  ⟨rfl, rfl, rfl, rfl⟩

/-- C10: indexing a Vector at 0, 1, 2 returns the components x, y, z, and
every other integer index, including -1, raises IndexError. -/
theorem getitem_spec (v : Vec) (i : ℤ) :
    v.getitem 0 = some v.x ∧ v.getitem 1 = some v.y ∧ v.getitem 2 = some v.z ∧
    (i ≠ 0 → i ≠ 1 → i ≠ 2 → v.getitem i = none) ∧ v.getitem (-1) = none := by
  refine ⟨rfl, rfl, rfl, ?_, rfl⟩
  intro h0 h1 h2
  simp [Vec.getitem, h0, h1, h2]

/-- Witness for C10 at the concrete out-of-range index 3. -/
theorem getitem_spec_witness :
    ((3 : ℤ) ≠ 0 ∧ (3 : ℤ) ≠ 1 ∧ (3 : ℤ) ≠ 2) ∧
    Vec.getitem ⟨5, 6, 7⟩ 3 = none :=
  ⟨⟨by decide, by decide, by decide⟩,
   (getitem_spec ⟨5, 6, 7⟩ 3).2.2.2.1 (by decide) (by decide) (by decide)⟩

/-- C7: constructing a Triangle from exactly three vertices succeeds, and
every other vertex count is rejected with a reportable error at construction
time, before any Triangle value exists. -/
theorem triangle_make_spec (vs : List Vec) :
    (vs.length = 3 → triangle_make vs = .ok ⟨vs⟩) ∧
    (vs.length ≠ 3 → triangle_make vs = .error ()) := by
  constructor <;> intro h <;> simp [triangle_make, h]

/-- Witness for C7 at a concrete three-vertex list and the empty list. -/
theorem triangle_make_spec_witness :
    ([(⟨0, 0, 0⟩ : Vec), ⟨1, 0, 0⟩, ⟨0, 1, 0⟩].length = 3 ∧
      triangle_make [(⟨0, 0, 0⟩ : Vec), ⟨1, 0, 0⟩, ⟨0, 1, 0⟩] =
        .ok ⟨[⟨0, 0, 0⟩, ⟨1, 0, 0⟩, ⟨0, 1, 0⟩]⟩) ∧
    (([] : List Vec).length ≠ 3 ∧ triangle_make ([] : List Vec) = .error ()) :=
  ⟨⟨rfl, (triangle_make_spec _).1 rfl⟩,
   ⟨by simp, (triangle_make_spec _).2 (by simp)⟩⟩

/-- C5: point_matrix_multiply does not reduce to rotation plus translation.
At the matrix with the identity rotation block and translation (0, 0, 5) and
the point (0, 0, 1), the code divides the translated point (0, 0, 6) by
depth = dot (p, from_) + 1 = 6 and returns (0, 0, 1), while the rotated point
plus the translation is (0, 0, 6): the code reads the divisor from the
translation row instead of the projective column, whose transformed
homogeneous coordinate is 1 for every point. -/
theorem point_matrix_multiply_bug :
    point_matrix_multiply ⟨⟨1, 0, 0⟩, ⟨0, 1, 0⟩, ⟨0, 0, 1⟩, ⟨0, 0, 5⟩⟩ ⟨0, 0, 1⟩ = ⟨0, 0, 1⟩ ∧
    vector_matrix_multiply ⟨⟨1, 0, 0⟩, ⟨0, 1, 0⟩, ⟨0, 0, 1⟩, ⟨0, 0, 5⟩⟩ ⟨0, 0, 1⟩ +
      (⟨0, 0, 5⟩ : Vec) = ⟨0, 0, 6⟩ ∧
    ((⟨0, 0, 1⟩ : Vec) ≠ ⟨0, 0, 6⟩) := by
  refine ⟨?_, ?_, ?_⟩
  · simp only [point_matrix_multiply, vector_matrix_multiply, Vec.smul_def, Vec.add_def,
      Vec.dot, Vec.divScalar]
    simp only [Vec.mk.injEq]
    norm_num
  · simp only [vector_matrix_multiply, Vec.smul_def, Vec.add_def, Vec.mk.injEq]
    norm_num
  · simp only [ne_eq, Vec.mk.injEq]
    norm_num

/-- C6: at the postprocessed channel value c = 1007 / 2560, for which
256 * c = 100.7, the byte actually written by Scene.render is the truncation
of min (255, 256 * c), namely 100, while the documented contract
clamp (0, 255, round (256 * c)) gives 101. -/
theorem render_byte_bug :
    render_byte (1007 / 2560) = 100 ∧ contract_byte (1007 / 2560) = 101 ∧
    ((100 : ℤ) ≠ 101) := by
  have h1 : (256 : ℝ) * (1007 / 2560) = 1007 / 10 := by norm_num
  refine ⟨?_, ?_, by decide⟩
  · unfold render_byte np_clip_as_written uint8_trunc
    rw [h1]
    rw [max_eq_right (by norm_num : (0 : ℝ) ≤ 255),
        min_eq_right (by norm_num : (1007 : ℝ) / 10 ≤ 255),
        if_pos (by norm_num : (0 : ℝ) ≤ 1007 / 10)]
    rw [Int.floor_eq_iff]
    constructor <;> norm_num
  · unfold contract_byte
    rw [h1, round_eq]
    have h2 : ⌊(1007 : ℝ) / 10 + 1 / 2⌋ = 101 := by
      rw [Int.floor_eq_iff]
      constructor <;> norm_num
    rw [h2]
    norm_num

/-- Helper: the square root of four. -/
theorem sqrt_four : Real.sqrt 4 = 2 := by
  rw [show (4 : ℝ) = 2 ^ 2 by norm_num, Real.sqrt_sq (by norm_num : (0 : ℝ) ≤ 2)]

/-- C4: a Ray constructed from any origin and any nonzero direction has a
direction of unit length; rays are only ever produced by this constructor, so
the invariant holds for every Ray the operations observe. -/
theorem ray_direction_unit (o d : Vec) (hd : d ≠ 0) :
    (mkRay o d).direction.length = 1 := by
  obtain ⟨x, y, z⟩ := d
  have h0 : x ^ 2 + y ^ 2 + z ^ 2 ≠ 0 := by
    intro h
    apply hd
    have hx : x = 0 := by nlinarith [sq_nonneg x, sq_nonneg y, sq_nonneg z]
    have hy : y = 0 := by nlinarith [sq_nonneg x, sq_nonneg y, sq_nonneg z]
    have hz : z = 0 := by nlinarith [sq_nonneg x, sq_nonneg y, sq_nonneg z]
    rw [hx, hy, hz]
    rfl
  have hS : 0 < x ^ 2 + y ^ 2 + z ^ 2 := lt_of_le_of_ne (by positivity) (Ne.symm h0)
  simp only [mkRay, Vec.normalize, Vec.divScalar, Vec.length]
  rw [div_pow, div_pow, div_pow, Real.sq_sqrt hS.le]
  have hsum : x ^ 2 / (x ^ 2 + y ^ 2 + z ^ 2) + y ^ 2 / (x ^ 2 + y ^ 2 + z ^ 2) +
      z ^ 2 / (x ^ 2 + y ^ 2 + z ^ 2) = 1 := by
    field_simp
  rw [hsum, Real.sqrt_one]

/-- Witness for C4 at the concrete direction (0, 0, 2). -/
theorem ray_direction_unit_witness :
    ((⟨0, 0, 2⟩ : Vec) ≠ 0) ∧ (mkRay ⟨0, 0, 0⟩ ⟨0, 0, 2⟩).direction.length = 1 := by
  have hne : (⟨0, 0, 2⟩ : Vec) ≠ 0 := by
    intro h
    have h2 := congrArg Vec.z h
    simp only [Vec.zero_def] at h2
    norm_num at h2
  exact ⟨hne, ray_direction_unit _ _ hne⟩

/-- C3: for a normalized incoming direction d, a normal n and an index ratio
eta, with cosI = -dot (n, d) and with the normal, eta and cosI flipped when
cosI is negative, refract returns none exactly when
sin2T = eta ^ 2 * (1 - cosI ^ 2) exceeds 1 (total internal reflection), and
otherwise returns the normalization of
eta * d + (eta * cosI - sqrt (1 - sin2T)) * n. -/
theorem refract_spec (d n : Vec) (eta : ℝ) (hd : d.length = 1) (e cI : ℝ) (nf : Vec)
    (he : e = if -(n.dot d) < 0 then 1 / eta else eta)
    (hcI : cI = if -(n.dot d) < 0 then -(-(n.dot d)) else -(n.dot d))
    (hnf : nf = if -(n.dot d) < 0 then -n else n) :
    (refract d n eta = none ↔ 1 < e ^ 2 * (1 - cI ^ 2)) ∧
    (¬ 1 < e ^ 2 * (1 - cI ^ 2) →
      refract d n eta = some
        ((e • d + (e * cI - Real.sqrt (1 - e ^ 2 * (1 - cI ^ 2))) • nf).normalize)) := by
  subst he hcI hnf
  by_cases hc : -(n.dot d) < 0
  · simp only [refract, if_pos hc]
    constructor
    · split_ifs with h
      · exact iff_of_true rfl h
      · exact iff_of_false (by simp) h
    · intro h
      rw [if_neg h]
  · simp only [refract, if_neg hc]
    constructor
    · split_ifs with h
      · exact iff_of_true rfl h
      · exact iff_of_false (by simp) h
    · intro h
      rw [if_neg h]

/-- Witness for C3: a unit direction straight into the surface with eta = 1
is refracted to itself. -/
theorem refract_spec_witness :
    Vec.length ⟨0, 0, -1⟩ = 1 ∧
    refract ⟨0, 0, -1⟩ ⟨0, 0, 1⟩ 1 = some ⟨0, 0, -1⟩ := by
  have hd : Vec.length ⟨0, 0, -1⟩ = 1 := by
    simp only [Vec.length]
    norm_num
  have hdot : Vec.dot (⟨0, 0, 1⟩ : Vec) ⟨0, 0, -1⟩ = -1 := by
    norm_num [Vec.dot]
  have hc : ¬ (-(Vec.dot (⟨0, 0, 1⟩ : Vec) ⟨0, 0, -1⟩) < 0) := by
    rw [hdot]
    norm_num
  have h := (refract_spec ⟨0, 0, -1⟩ ⟨0, 0, 1⟩ 1 hd 1 1 ⟨0, 0, 1⟩
      (by rw [if_neg hc]) (by rw [if_neg hc, hdot]; norm_num) (by rw [if_neg hc])).2
      (by norm_num)
  refine ⟨hd, ?_⟩
  rw [h]
  have hval : (1 : ℝ) • (⟨0, 0, -1⟩ : Vec) +
      (1 * 1 - Real.sqrt (1 - 1 ^ 2 * (1 - 1 ^ 2))) • (⟨0, 0, 1⟩ : Vec) = ⟨0, 0, -1⟩ := by
    rw [show (1 : ℝ) - 1 ^ 2 * (1 - 1 ^ 2) = 1 by norm_num, Real.sqrt_one]
    simp only [Vec.smul_def, Vec.add_def, Vec.mk.injEq]
    norm_num
  rw [hval]
  simp only [Vec.normalize, Vec.divScalar, hd, Vec.mk.injEq]
  norm_num

/-- C2 counterexample: at a = 0, b = 0, c = 1 the discriminant is 0, hence
non-negative, and the input is not the all-zero degenerate case, yet
solve_quadratic returns no root pair, contradicting the claim that every
non-degenerate input with non-negative discriminant yields a pair of roots. -/
theorem solve_quadratic_claim_counterexample :
    (0 : ℝ) ≤ (0 : ℝ) ^ 2 - 4 * 0 * 1 ∧
    ¬ ((0 : ℝ) = 0 ∧ (0 : ℝ) = 0 ∧ (1 : ℝ) = 0) ∧
    solve_quadratic 0 0 1 = .ok none := by
  refine ⟨by norm_num, by norm_num, ?_⟩
  unfold solve_quadratic
  rw [if_pos rfl, if_pos rfl, if_neg one_ne_zero]

/-- C2 amended: solve_quadratic fails with a reportable error exactly when
a = b = c = 0; when a = b = 0 and c is nonzero it returns no result even
though the discriminant is zero, because the equation has no solutions; when
a = 0 and b is nonzero it returns the root of the linear equation twice; and
when a is nonzero a negative discriminant yields no result while a
non-negative discriminant yields a pair of roots of the quadratic sorted
ascending, equal when the discriminant is zero. -/
theorem solve_quadratic_spec (a b c : ℝ) :
    (solve_quadratic a b c = .error () ↔ a = 0 ∧ b = 0 ∧ c = 0) ∧
    (a = 0 → b = 0 → c ≠ 0 → solve_quadratic a b c = .ok none) ∧
    (a = 0 → b ≠ 0 →
      solve_quadratic a b c = .ok (some (-c / b, -c / b)) ∧ b * (-c / b) + c = 0) ∧
    (a ≠ 0 → b ^ 2 - 4 * a * c < 0 → solve_quadratic a b c = .ok none) ∧
    (a ≠ 0 → 0 ≤ b ^ 2 - 4 * a * c →
      ∃ t0 t1, solve_quadratic a b c = .ok (some (t0, t1)) ∧ t0 ≤ t1 ∧
        a * t0 ^ 2 + b * t0 + c = 0 ∧ a * t1 ^ 2 + b * t1 + c = 0 ∧
        (b ^ 2 - 4 * a * c = 0 → t0 = t1)) := by
  refine ⟨?_, ?_, ?_, ?_, ?_⟩
  · simp only [solve_quadratic]
    split_ifs with h1 h2 h3 h4 h5 <;> simp_all
  · intro h1 h2 h3
    unfold solve_quadratic
    rw [if_pos h1, if_pos h2, if_neg h3]
  · intro h1 h2
    unfold solve_quadratic
    rw [if_pos h1, if_neg h2]
    refine ⟨rfl, ?_⟩
    field_simp
    ring
  · intro h1 h2
    simp only [solve_quadratic, if_neg h1]
    rw [if_pos h2]
  · intro h1 h2
    have hnl : ¬ (b ^ 2 - 4 * a * c < 0) := not_lt.mpr h2
    have hsq : Real.sqrt (b ^ 2 - 4 * a * c) ^ 2 = b ^ 2 - 4 * a * c := Real.sq_sqrt h2
    set s := Real.sqrt (b ^ 2 - 4 * a * c) with hs
    have root1 : a * ((-b - s) / (2 * a)) ^ 2 + b * ((-b - s) / (2 * a)) + c = 0 := by
      have expand : a * ((-b - s) / (2 * a)) ^ 2 + b * ((-b - s) / (2 * a)) + c
          = (s ^ 2 - (b ^ 2 - 4 * a * c)) / (4 * a) := by
        field_simp
        ring
      rw [expand, hsq, sub_self, zero_div]
    have root2 : a * ((-b + s) / (2 * a)) ^ 2 + b * ((-b + s) / (2 * a)) + c = 0 := by
      have expand : a * ((-b + s) / (2 * a)) ^ 2 + b * ((-b + s) / (2 * a)) + c
          = (s ^ 2 - (b ^ 2 - 4 * a * c)) / (4 * a) := by
        field_simp
        ring
      rw [expand, hsq, sub_self, zero_div]
    have hzero : b ^ 2 - 4 * a * c = 0 → (-b - s) / (2 * a) = (-b + s) / (2 * a) := by
      intro hd0
      have hs0 : s = 0 := by rw [hs, hd0, Real.sqrt_zero]
      rw [hs0, sub_zero, add_zero]
    by_cases hr : (-b - s) / (2 * a) ≤ (-b + s) / (2 * a)
    · refine ⟨(-b - s) / (2 * a), (-b + s) / (2 * a), ?_, hr, root1, root2, hzero⟩
      simp only [solve_quadratic, if_neg h1, if_neg hnl, ← hs]
      rw [if_pos hr]
    · refine ⟨(-b + s) / (2 * a), (-b - s) / (2 * a), ?_, (not_le.mp hr).le, root2, root1,
        fun hd0 => (hzero hd0).symm⟩
      simp only [solve_quadratic, if_neg h1, if_neg hnl, ← hs]
      rw [if_neg hr]

/-- Witness for C2 at the concrete quadratic x ^ 2 - 4 = 0. -/
theorem solve_quadratic_spec_witness :
    (1 : ℝ) ≠ 0 ∧ (0 : ℝ) ≤ (0 : ℝ) ^ 2 - 4 * 1 * (-4) ∧
    ∃ t0 t1, solve_quadratic 1 0 (-4) = .ok (some (t0, t1)) ∧ t0 ≤ t1 ∧
      1 * t0 ^ 2 + 0 * t0 + (-4) = 0 ∧ 1 * t1 ^ 2 + 0 * t1 + (-4) = 0 ∧
      ((0 : ℝ) ^ 2 - 4 * 1 * (-4) = 0 → t0 = t1) :=
  ⟨one_ne_zero, by norm_num,
   (solve_quadratic_spec 1 0 (-4)).2.2.2.2 one_ne_zero (by norm_num)⟩

/-- C1: Sphere.intersect solves the quadratic with a = 1,
b = 2 * dot (D, O - C) and c = dot (O - C, O - C) - r ^ 2; when the solver
reports no roots there is no intersection, and for roots (t0, t1): both
negative yields none, t0 negative with t1 positive reports the exit point t1,
and otherwise t0 is reported. -/
theorem sphere_intersect_spec (s : Sphere) (r : Ray) :
    (solve_quadratic 1 (2 * (r.direction.dot (r.origin - s.center)))
        ((r.origin - s.center).dot (r.origin - s.center) - s.radius ^ 2) = .ok none →
      s.intersect r = none) ∧
    (∀ t0 t1,
      solve_quadratic 1 (2 * (r.direction.dot (r.origin - s.center)))
          ((r.origin - s.center).dot (r.origin - s.center) - s.radius ^ 2) =
        .ok (some (t0, t1)) →
      (t0 < 0 → t1 < 0 → s.intersect r = none) ∧
      (t0 < 0 → 0 < t1 → ∃ i, s.intersect r = some i ∧ i.t = t1) ∧
      (¬ (t0 < 0 ∧ t1 < 0) → ¬ (t0 < 0 ∧ 0 < t1) →
        ∃ i, s.intersect r = some i ∧ i.t = t0)) := by
  constructor
  · intro h
    simp only [Sphere.intersect, h]
  · intro t0 t1 h
    refine ⟨?_, ?_, ?_⟩
    · intro h0 h1
      simp only [Sphere.intersect, h]
      rw [if_pos ⟨h0, h1⟩]
    · intro h0 h1
      have hn : ¬ (t0 < 0 ∧ t1 < 0) := fun hb => absurd h1 (not_lt.mpr hb.2.le)
      refine ⟨⟨t1, r.origin + t1 • r.direction,
        s.get_normal (r.origin + t1 • r.direction)⟩, ?_, rfl⟩
      simp only [Sphere.intersect, h]
      rw [if_neg hn, if_pos ⟨h0, h1⟩]
    · intro hn1 hn2
      refine ⟨⟨t0, r.origin + t0 • r.direction,
        s.get_normal (r.origin + t0 • r.direction)⟩, ?_, rfl⟩
      simp only [Sphere.intersect, h]
      rw [if_neg hn1, if_neg hn2]

/-- Witness for C1: the unit sphere at the origin and the ray from (0, 0, 5)
toward (0, 0, -1) give the quadratic roots (4, 6) and an intersection at
t = 4. -/
theorem sphere_intersect_spec_witness :
    solve_quadratic 1 (2 * (Vec.dot (⟨0, 0, -1⟩ : Vec) ((⟨0, 0, 5⟩ : Vec) - ⟨0, 0, 0⟩)))
        (Vec.dot ((⟨0, 0, 5⟩ : Vec) - ⟨0, 0, 0⟩) ((⟨0, 0, 5⟩ : Vec) - ⟨0, 0, 0⟩) -
          (1 : ℝ) ^ 2) = .ok (some (4, 6)) ∧
    ∃ i, Sphere.intersect ⟨⟨0, 0, 0⟩, 1⟩ ⟨⟨0, 0, 5⟩, ⟨0, 0, -1⟩⟩ = some i ∧ i.t = 4 := by
  have e1 : 2 * (Vec.dot (⟨0, 0, -1⟩ : Vec) ((⟨0, 0, 5⟩ : Vec) - ⟨0, 0, 0⟩)) = (-10 : ℝ) := by
    norm_num [Vec.dot, Vec.sub_def]
  have e2 : Vec.dot ((⟨0, 0, 5⟩ : Vec) - ⟨0, 0, 0⟩) ((⟨0, 0, 5⟩ : Vec) - ⟨0, 0, 0⟩) -
      (1 : ℝ) ^ 2 = 24 := by
    norm_num [Vec.dot, Vec.sub_def]
  have hd : ((-10 : ℝ)) ^ 2 - 4 * 1 * 24 = 4 := by norm_num
  have hsolve : solve_quadratic 1 (-10) 24 = .ok (some (4, 6)) := by
    simp only [solve_quadratic, if_neg (one_ne_zero : (1 : ℝ) ≠ 0), hd]
    rw [if_neg (by norm_num : ¬ (4 : ℝ) < 0), sqrt_four]
    rw [if_pos (by norm_num : (-(-10 : ℝ) - 2) / (2 * 1) ≤ (-(-10 : ℝ) + 2) / (2 * 1))]
    norm_num
  have hsolve' : solve_quadratic 1
      (2 * (Vec.dot (⟨0, 0, -1⟩ : Vec) ((⟨0, 0, 5⟩ : Vec) - ⟨0, 0, 0⟩)))
      (Vec.dot ((⟨0, 0, 5⟩ : Vec) - ⟨0, 0, 0⟩) ((⟨0, 0, 5⟩ : Vec) - ⟨0, 0, 0⟩) -
        (1 : ℝ) ^ 2) = .ok (some (4, 6)) := by
    rw [e1, e2]
    exact hsolve
  obtain ⟨i, hi, ht⟩ :=
    ((sphere_intersect_spec ⟨⟨0, 0, 0⟩, 1⟩ ⟨⟨0, 0, 5⟩, ⟨0, 0, -1⟩⟩).2 4 6 hsolve').2.2
      (by norm_num) (by norm_num)
  exact ⟨hsolve', i, hi, ht⟩

/-! Helper lemmas about maxChannel and the per-pixel postprocessing steps. -/

theorem x_le_maxChannel (p : Vec) : p.x ≤ maxChannel p := le_max_left _ _

theorem y_le_maxChannel (p : Vec) : p.y ≤ maxChannel p :=
  le_trans (le_max_left _ _) (le_max_right _ _)

theorem z_le_maxChannel (p : Vec) : p.z ≤ maxChannel p :=
  le_trans (le_max_right _ _) (le_max_right _ _)

/-- Helper: the rescaling step of tone mapping sends a pixel with
non-negative channels into the unit cube. -/
theorem tone_rescale_unit (q : Vec) (hx : 0 ≤ q.x) (hy : 0 ≤ q.y) (hz : 0 ≤ q.z) :
    ∀ r : Vec, r = (if 1 < maxChannel q then q.divScalar (maxChannel q) else q) →
      (0 ≤ r.x ∧ r.x ≤ 1) ∧ (0 ≤ r.y ∧ r.y ≤ 1) ∧ (0 ≤ r.z ∧ r.z ≤ 1) := by
  intro r hr
  rw [hr]
  by_cases h : 1 < maxChannel q
  · rw [if_pos h]
    have hM : 0 < maxChannel q := lt_trans one_pos h
    simp only [Vec.divScalar]
    exact ⟨⟨div_nonneg hx hM.le, (div_le_one hM).mpr (x_le_maxChannel q)⟩,
      ⟨div_nonneg hy hM.le, (div_le_one hM).mpr (y_le_maxChannel q)⟩,
      ⟨div_nonneg hz hM.le, (div_le_one hM).mpr (z_le_maxChannel q)⟩⟩
  · rw [if_neg h]
    have hM : maxChannel q ≤ 1 := not_lt.mp h
    exact ⟨⟨hx, le_trans (x_le_maxChannel q) hM⟩, ⟨hy, le_trans (y_le_maxChannel q) hM⟩,
      ⟨hz, le_trans (z_le_maxChannel q) hM⟩⟩

/-- Helper: gamma correction with a positive gamma preserves the unit
cube. -/
theorem gamma_pixel_unit (gamma eps : ℝ) (hg : 0 < gamma) (q : Vec)
    (hq : (0 ≤ q.x ∧ q.x ≤ 1) ∧ (0 ≤ q.y ∧ q.y ≤ 1) ∧ (0 ≤ q.z ∧ q.z ≤ 1)) :
    (0 ≤ (gamma_correction_pixel gamma eps q).x ∧ (gamma_correction_pixel gamma eps q).x ≤ 1) ∧
    (0 ≤ (gamma_correction_pixel gamma eps q).y ∧ (gamma_correction_pixel gamma eps q).y ≤ 1) ∧
    (0 ≤ (gamma_correction_pixel gamma eps q).z ∧ (gamma_correction_pixel gamma eps q).z ≤ 1) := by
  unfold gamma_correction_pixel
  by_cases h : maxChannel q ≤ eps
  · rw [if_pos h]
    exact hq
  · rw [if_neg h]
    have he : (0 : ℝ) ≤ 1 / gamma := by positivity
    exact ⟨⟨Real.rpow_nonneg hq.1.1 _, Real.rpow_le_one hq.1.1 hq.1.2 he⟩,
      ⟨Real.rpow_nonneg hq.2.1.1 _, Real.rpow_le_one hq.2.1.1 hq.2.1.2 he⟩,
      ⟨Real.rpow_nonneg hq.2.2.1 _, Real.rpow_le_one hq.2.2.1 hq.2.2.2 he⟩⟩

/-- Helper: the full per-pixel postprocess sends a pixel with non-negative
channels into the unit cube, for a background with non-negative channels. -/
theorem postprocess_pixel_unit (bg : Vec) (gamma eps : ℝ) (hg : 0 < gamma)
    (hbx : 0 ≤ bg.x) (hby : 0 ≤ bg.y) (hbz : 0 ≤ bg.z) (p : Vec)
    (hpx : 0 ≤ p.x) (hpy : 0 ≤ p.y) (hpz : 0 ≤ p.z) :
    (0 ≤ (postprocess_pixel bg gamma eps p).x ∧ (postprocess_pixel bg gamma eps p).x ≤ 1) ∧
    (0 ≤ (postprocess_pixel bg gamma eps p).y ∧ (postprocess_pixel bg gamma eps p).y ≤ 1) ∧
    (0 ≤ (postprocess_pixel bg gamma eps p).z ∧ (postprocess_pixel bg gamma eps p).z ≤ 1) := by
  unfold postprocess_pixel tone_mapping_pixel
  apply gamma_pixel_unit gamma eps hg
  set q := if |p.x - noneVector.x| ≤ eps ∧ |p.y - noneVector.y| ≤ eps ∧
      |p.z - noneVector.z| ≤ eps then bg else p with hqdef
  have hq : 0 ≤ q.x ∧ 0 ≤ q.y ∧ 0 ≤ q.z := by
    rw [hqdef]
    split_ifs
    · exact ⟨hbx, hby, hbz⟩
    · exact ⟨hpx, hpy, hpz⟩
  exact tone_rescale_unit q hq.1 hq.2.1 hq.2.2 _ rfl

/-- Helper: the per-pixel postprocess fixes any pixel all of whose channels
are 0 or 1, at the default tolerance EPS. -/
theorem postprocess_pixel_fix (bg : Vec) (gamma : ℝ) (hg : 0 < gamma) (q : Vec)
    (hx : q.x = 0 ∨ q.x = 1) (hy : q.y = 0 ∨ q.y = 1) (hz : q.z = 0 ∨ q.z = 1) :
    postprocess_pixel bg gamma EPS q = q := by
  have hmiss : ¬ (|q.x - noneVector.x| ≤ EPS ∧ |q.y - noneVector.y| ≤ EPS ∧
      |q.z - noneVector.z| ≤ EPS) := by
    rintro ⟨h1, -, -⟩
    rcases hx with h | h <;> rw [h] at h1 <;>
      norm_num [noneVector, EPS, abs_le] at h1
  have hb1 : q.x ≤ 1 := by rcases hx with h | h <;> rw [h] <;> norm_num
  have hb2 : q.y ≤ 1 := by rcases hy with h | h <;> rw [h] <;> norm_num
  have hb3 : q.z ≤ 1 := by rcases hz with h | h <;> rw [h] <;> norm_num
  have hmax : maxChannel q ≤ 1 := max_le hb1 (max_le hb2 hb3)
  unfold postprocess_pixel tone_mapping_pixel
  rw [if_neg hmiss, if_neg (not_lt.mpr hmax)]
  unfold gamma_correction_pixel
  by_cases hsk : maxChannel q ≤ EPS
  · rw [if_pos hsk]
  · rw [if_neg hsk]
    have hginv : (1 : ℝ) / gamma ≠ 0 := by positivity
    have ex : q.x ^ ((1 : ℝ) / gamma) = q.x := by
      rcases hx with h | h <;> rw [h]
      · exact Real.zero_rpow hginv
      · exact Real.one_rpow _
    have ey : q.y ^ ((1 : ℝ) / gamma) = q.y := by
      rcases hy with h | h <;> rw [h]
      · exact Real.zero_rpow hginv
      · exact Real.one_rpow _
    have ez : q.z ^ ((1 : ℝ) / gamma) = q.z := by
      rcases hz with h | h <;> rw [h]
      · exact Real.zero_rpow hginv
      · exact Real.one_rpow _
    rw [ex, ey, ez]

/-- Helper: postprocess acts per pixel on a replicated buffer. -/
theorem postprocess_replicate (bg p : Vec) (gamma eps : ℝ) (n : ℕ) :
    postprocess bg gamma eps (List.replicate n p) =
      List.replicate n (postprocess_pixel bg gamma eps p) := by
  simp [postprocess, tone_mapping, gamma_correction, postprocess_pixel, List.map_replicate]

/-- C8 counterexample: with background channel 2 ^ (-11/5) the processed
all-background one-pixel buffer is (1/2, 1/2, 1/2), and a second application
of tone mapping followed by gamma correction changes it to
((1/2) ^ (5/11), ...), so the pipeline is not idempotent on an
already-processed all-background buffer; and the input pixel (0, 0, -5) is
not the miss sentinel, needs no rescale and is skipped by gamma correction,
so it survives postprocess unchanged with the channel -5 outside [0, 1]. -/
theorem postprocess_claim_counterexample :
    postprocess c8bg (11 / 5) EPS (postprocess c8bg (11 / 5) EPS [c8bg]) ≠
      postprocess c8bg (11 / 5) EPS [c8bg] ∧
    (postprocess ⟨0, 0, 0⟩ (11 / 5) EPS [⟨0, 0, -5⟩] = [⟨0, 0, -5⟩] ∧
      ¬ (0 ≤ (-5 : ℝ))) := by
  have hcbpos : 0 < (2 : ℝ) ^ ((-11 : ℝ) / 5) := Real.rpow_pos_of_pos two_pos _
  have hcblt1 : (2 : ℝ) ^ ((-11 : ℝ) / 5) < 1 :=
    Real.rpow_lt_one_of_one_lt_of_neg one_lt_two (by norm_num)
  have h18 : (2 : ℝ) ^ ((-3 : ℝ)) = 1 / 8 := by
    rw [show ((-3 : ℝ)) = ((-3 : ℤ) : ℝ) by norm_num, Real.rpow_intCast]
    norm_num
  have hepscb : EPS < (2 : ℝ) ^ ((-11 : ℝ) / 5) := by
    have hmono : (2 : ℝ) ^ ((-3 : ℝ)) < (2 : ℝ) ^ ((-11 : ℝ) / 5) :=
      (Real.rpow_lt_rpow_left_iff one_lt_two).mpr (by norm_num)
    rw [h18] at hmono
    have : EPS < 1 / 8 := by norm_num [EPS]
    linarith
  have hmaxbg : maxChannel c8bg = (2 : ℝ) ^ ((-11 : ℝ) / 5) := by
    simp [maxChannel, c8bg]
  have hmiss1 : ¬ (|c8bg.x - noneVector.x| ≤ EPS ∧ |c8bg.y - noneVector.y| ≤ EPS ∧
      |c8bg.z - noneVector.z| ≤ EPS) := by
    rintro ⟨h1, -, -⟩
    have hx : c8bg.x - noneVector.x = (2 : ℝ) ^ ((-11 : ℝ) / 5) + 3.14 := by
      simp [c8bg, noneVector]
    rw [hx, abs_of_pos (by linarith)] at h1
    have : EPS < (2 : ℝ) ^ ((-11 : ℝ) / 5) + 3.14 := by
      have : (0 : ℝ) < 3.14 := by norm_num
      linarith [hepscb]
    linarith
  have hT1 : tone_mapping_pixel c8bg EPS c8bg = c8bg := by
    simp only [tone_mapping_pixel]
    rw [if_neg hmiss1, if_neg (by rw [hmaxbg]; exact not_lt.mpr hcblt1.le)]
  have hexp : (1 : ℝ) / (11 / 5) = 5 / 11 := by norm_num
  have hhalf : ((2 : ℝ) ^ ((-11 : ℝ) / 5)) ^ ((5 : ℝ) / 11) = 1 / 2 := by
    rw [← Real.rpow_mul (by norm_num : (0 : ℝ) ≤ 2)]
    rw [show ((-11 : ℝ) / 5 * (5 / 11)) = -1 by norm_num]
    rw [Real.rpow_neg_one]
    norm_num
  have hG1 : gamma_correction_pixel (11 / 5) EPS c8bg = ⟨1 / 2, 1 / 2, 1 / 2⟩ := by
    simp only [gamma_correction_pixel]
    rw [if_neg (by rw [hmaxbg]; exact not_le.mpr hepscb)]
    simp only [c8bg, hexp, Vec.mk.injEq]
    exact ⟨hhalf, hhalf, hhalf⟩
  have hP1 : postprocess c8bg (11 / 5) EPS [c8bg] = [⟨1 / 2, 1 / 2, 1 / 2⟩] := by
    simp only [postprocess, tone_mapping, gamma_correction, List.map_cons, List.map_nil]
    rw [hT1, hG1]
  have hmax2 : maxChannel ⟨1 / 2, 1 / 2, 1 / 2⟩ = 1 / 2 := by
    simp only [maxChannel, max_self]
  have hm2 : ¬ (|(1 / 2 : ℝ) - noneVector.x| ≤ EPS ∧ |(1 / 2 : ℝ) - noneVector.y| ≤ EPS ∧
      |(1 / 2 : ℝ) - noneVector.z| ≤ EPS) := by
    norm_num [noneVector, EPS, abs_le]
  have hlt2 : ¬ (1 < maxChannel (⟨1 / 2, 1 / 2, 1 / 2⟩ : Vec)) := by
    rw [hmax2]
    norm_num
  have hsk2 : ¬ (maxChannel (⟨1 / 2, 1 / 2, 1 / 2⟩ : Vec) ≤ EPS) := by
    rw [hmax2]
    norm_num [EPS]
  have hT2 : tone_mapping_pixel c8bg EPS ⟨1 / 2, 1 / 2, 1 / 2⟩ = ⟨1 / 2, 1 / 2, 1 / 2⟩ := by
    simp only [tone_mapping_pixel]
    rw [if_neg hm2, if_neg hlt2]
  have hG2 : gamma_correction_pixel (11 / 5) EPS ⟨1 / 2, 1 / 2, 1 / 2⟩ =
      ⟨(1 / 2 : ℝ) ^ ((5 : ℝ) / 11), (1 / 2 : ℝ) ^ ((5 : ℝ) / 11),
        (1 / 2 : ℝ) ^ ((5 : ℝ) / 11)⟩ := by
    simp only [gamma_correction_pixel]
    rw [if_neg hsk2]
    simp only [hexp]
  have hne : (1 / 2 : ℝ) ^ ((5 : ℝ) / 11) ≠ 1 / 2 := by
    have hlt : (1 / 2 : ℝ) ^ (1 : ℝ) < (1 / 2 : ℝ) ^ ((5 : ℝ) / 11) :=
      Real.rpow_lt_rpow_of_exponent_gt (by norm_num) (by norm_num) (by norm_num)
    rw [Real.rpow_one] at hlt
    exact ne_of_gt hlt
  refine ⟨?_, ?_, by norm_num⟩
  · rw [hP1]
    have hP2 : postprocess c8bg (11 / 5) EPS [⟨1 / 2, 1 / 2, 1 / 2⟩] =
        [⟨(1 / 2 : ℝ) ^ ((5 : ℝ) / 11), (1 / 2 : ℝ) ^ ((5 : ℝ) / 11),
          (1 / 2 : ℝ) ^ ((5 : ℝ) / 11)⟩] := by
      simp only [postprocess, tone_mapping, gamma_correction, List.map_cons, List.map_nil]
      rw [hT2, hG2]
    rw [hP2]
    intro h
    have := List.head_eq_of_cons_eq h
    rw [Vec.mk.injEq] at this
    exact hne this.1
  · have hmaxz : maxChannel ⟨0, 0, -5⟩ = 0 := by
      simp only [maxChannel]
      rw [max_eq_left (by norm_num : (-5 : ℝ) ≤ 0), max_self]
    have hmz : ¬ (|(0 : ℝ) - noneVector.x| ≤ EPS ∧ |(0 : ℝ) - noneVector.y| ≤ EPS ∧
        |(-5 : ℝ) - noneVector.z| ≤ EPS) := by
      norm_num [noneVector, EPS, abs_le]
    have hltz : ¬ (1 < maxChannel (⟨0, 0, -5⟩ : Vec)) := by
      rw [hmaxz]
      norm_num
    have hskz : maxChannel (⟨0, 0, -5⟩ : Vec) ≤ EPS := by
      rw [hmaxz]
      norm_num [EPS]
    simp only [postprocess, tone_mapping, gamma_correction, List.map_cons, List.map_nil]
    have hTz0 : tone_mapping_pixel ⟨0, 0, 0⟩ EPS ⟨0, 0, -5⟩ = ⟨0, 0, -5⟩ := by
      simp only [tone_mapping_pixel]
      rw [if_neg hmz, if_neg hltz]
    rw [hTz0]
    have hGz : gamma_correction_pixel (11 / 5) EPS ⟨0, 0, -5⟩ = ⟨0, 0, -5⟩ := by
      simp only [gamma_correction_pixel]
      rw [if_pos hskz]
    rw [hGz]

/-- C8 amended: tone mapping followed by gamma correction applied a second
time to an already-postprocessed all-background buffer yields the same
buffer whenever every channel of the processed background pixel is 0 or 1
(in particular for the default black background), and for every input buffer
and background all of whose channels are non-negative the postprocessed
result contains no channel value outside [0, 1]. -/
theorem postprocess_spec :
    (∀ (bg : Vec) (gamma : ℝ), 0 < gamma → ∀ n : ℕ,
      ((postprocess_pixel bg gamma EPS bg).x = 0 ∨ (postprocess_pixel bg gamma EPS bg).x = 1) →
      ((postprocess_pixel bg gamma EPS bg).y = 0 ∨ (postprocess_pixel bg gamma EPS bg).y = 1) →
      ((postprocess_pixel bg gamma EPS bg).z = 0 ∨ (postprocess_pixel bg gamma EPS bg).z = 1) →
      postprocess bg gamma EPS (postprocess bg gamma EPS (List.replicate n bg)) =
        postprocess bg gamma EPS (List.replicate n bg)) ∧
    (∀ (bg : Vec) (gamma eps : ℝ), 0 < gamma → ∀ buf : List Vec,
      0 ≤ bg.x → 0 ≤ bg.y → 0 ≤ bg.z →
      (∀ p ∈ buf, 0 ≤ p.x ∧ 0 ≤ p.y ∧ 0 ≤ p.z) →
      ∀ q ∈ postprocess bg gamma eps buf,
        (0 ≤ q.x ∧ q.x ≤ 1) ∧ (0 ≤ q.y ∧ q.y ≤ 1) ∧ (0 ≤ q.z ∧ q.z ≤ 1)) := by
  constructor
  · intro bg gamma hg n hx hy hz
    rw [postprocess_replicate, postprocess_replicate,
      postprocess_pixel_fix bg gamma hg _ hx hy hz]
  · intro bg gamma eps hg buf hbx hby hbz hbuf q hq
    simp only [postprocess, gamma_correction, tone_mapping, List.map_map, List.mem_map] at hq
    obtain ⟨p, hp, hpq⟩ := hq
    obtain ⟨hpx, hpy, hpz⟩ := hbuf p hp
    have hbounds := postprocess_pixel_unit bg gamma eps hg hbx hby hbz p hpx hpy hpz
    have hpq' : postprocess_pixel bg gamma eps p = q := hpq
    rw [← hpq']
    exact hbounds

/-- Witness for C8 at the black background and a small concrete buffer. -/
theorem postprocess_spec_witness :
    (0 : ℝ) < 11 / 5 ∧
    postprocess_pixel ⟨0, 0, 0⟩ (11 / 5) EPS ⟨0, 0, 0⟩ = ⟨0, 0, 0⟩ ∧
    postprocess ⟨0, 0, 0⟩ (11 / 5) EPS
        (postprocess ⟨0, 0, 0⟩ (11 / 5) EPS (List.replicate 2 ⟨0, 0, 0⟩)) =
      postprocess ⟨0, 0, 0⟩ (11 / 5) EPS (List.replicate 2 ⟨0, 0, 0⟩) ∧
    ∀ q ∈ postprocess ⟨0, 0, 0⟩ (11 / 5) EPS [(⟨0, 1 / 2, 2⟩ : Vec)],
      (0 ≤ q.x ∧ q.x ≤ 1) ∧ (0 ≤ q.y ∧ q.y ≤ 1) ∧ (0 ≤ q.z ∧ q.z ≤ 1) := by
  have hmax0 : maxChannel ⟨0, 0, 0⟩ = 0 := by
    simp [maxChannel]
  have hm0 : ¬ (|(0 : ℝ) - noneVector.x| ≤ EPS ∧ |(0 : ℝ) - noneVector.y| ≤ EPS ∧
      |(0 : ℝ) - noneVector.z| ≤ EPS) := by
    norm_num [noneVector, EPS, abs_le]
  have hlt0 : ¬ (1 < maxChannel (⟨0, 0, 0⟩ : Vec)) := by
    rw [hmax0]
    norm_num
  have hsk0 : maxChannel (⟨0, 0, 0⟩ : Vec) ≤ EPS := by
    rw [hmax0]
    norm_num [EPS]
  have hq0 : postprocess_pixel ⟨0, 0, 0⟩ (11 / 5) EPS ⟨0, 0, 0⟩ = ⟨0, 0, 0⟩ := by
    simp only [postprocess_pixel, tone_mapping_pixel]
    rw [if_neg hm0, if_neg hlt0]
    simp only [gamma_correction_pixel]
    rw [if_pos hsk0]
  refine ⟨by norm_num, hq0, ?_, ?_⟩
  · refine postprocess_spec.1 ⟨0, 0, 0⟩ (11 / 5) (by norm_num) 2 ?_ ?_ ?_ <;>
      rw [hq0] <;> exact Or.inl rfl
  · refine postprocess_spec.2 ⟨0, 0, 0⟩ (11 / 5) EPS (by norm_num) _ le_rfl le_rfl le_rfl ?_
    intro p hp
    rw [List.mem_singleton] at hp
    rw [hp]
    refine ⟨le_rfl, by norm_num, by norm_num⟩

end Raytracer
